import Mathlib

/-!
# Verification of the KAR archiver (zip-and-unzip-files)

Shallow embedding of the archive container format and its pack / unpack /
list algorithms (`src/src/archiver.cpp`, `src/src/format.hpp`,
`src/include/crc32.hpp`), together with proofs of the specified properties.

Modelling conventions:
* a byte stream is a `List Nat` whose elements are byte values;
* machine integers (`uint32_t`, `uint64_t`, …) are `Nat` with explicit
  `% 2^w` at the points where the C++ performs a narrowing cast;
* multi-byte integer fields are serialized little-endian, byte-packed,
  exactly as the `#pragma pack(1)` structs lay them out in memory;
* the filesystem-walk collaborator is represented by the list of files it
  yields (relative path bytes, content bytes, and the on-disk metadata that
  the walk could expose); the wall clock is an explicit `now` parameter;
* stream reads are `List.take` / `List.drop`; a read past the end of the
  stream yields the available bytes and missing bytes are decoded as zero
  (the C++ never checks stream state after a read, so a short read leaves
  the destination bytes unset; the zero-fill pins down that indeterminacy).
-/

set_option maxRecDepth 100000

namespace Kar

/-! ## Checksum engine (`src/include/crc32.hpp`) -/

namespace CRC32

/-- The reflected IEEE 802.3 generator polynomial used by `init_table`. -/
def POLYNOMIAL : Nat := 0xEDB88320

/-- One shift/XOR round of `init_table`'s inner loop:
if the low bit is set, shift right and XOR the polynomial, else shift. -/
def tableRound (crc : Nat) : Nat :=
  if crc &&& 1 = 1 then (crc >>> 1) ^^^ POLYNOMIAL else crc >>> 1

/-- Entry `i` of the lookup table: byte value `i` pushed through 8 rounds
(the body of `init_table`'s outer loop). -/
def tableEntry (i : Nat) : Nat :=
  tableRound (tableRound (tableRound (tableRound
    (tableRound (tableRound (tableRound (tableRound i)))))))

/-- The 256-entry lookup table `table_` built by `init_table`. -/
def table : List Nat := (List.range 256).map tableEntry

/-- One step of `calculate`'s loop: XOR the byte into the low byte of the
accumulator, use it as a table index, shift right 8, XOR the table entry. -/
def update (crc b : Nat) : Nat :=
  (crc >>> 8) ^^^ tableEntry ((crc ^^^ b) &&& 0xFF)

/-- Model of `CRC32::calculate`: seed `0xFFFFFFFF`, fold every byte through the
table, invert at the end. -/
def calculate (data : List Nat) : Nat :=
  (data.foldl update 0xFFFFFFFF) ^^^ 0xFFFFFFFF

end CRC32

/-! ## Little-endian field serialization (`#pragma pack(1)` layout) -/

/-- Serialize `v` into `w` bytes, little-endian (the in-memory layout of a
packed `w`-byte unsigned field holding `v`). -/
def toLE : Nat → Nat → List Nat
  | 0, _ => []
  | w + 1, v => v % 256 :: toLE w (v / 256)

/-- Decode a little-endian byte list back into a value.  Reading past the
end of the stream decodes the missing bytes as zero. -/
def fromLE : List Nat → Nat
  | [] => 0
  | b :: bs => b % 256 + 256 * fromLE bs

/-! ## Container format (`src/src/format.hpp`) -/

/-- The magic constant `KAR_MAGIC = 0x5241414B` — the bytes `KAAR` read little-endian. -/
def KAR_MAGIC : Nat := 0x5241414B

/-- Structure `FileHeader` — the packed global header (22 bytes on the wire). -/
structure FileHeader where
  magic : Nat
  version : Nat
  entry_count : Nat
  created_at : Nat
  reserved : Nat
deriving DecidableEq, Repr

/-- Structure `EntryHeader` — the packed per-entry header (26 bytes on the wire). -/
structure EntryHeader where
  path_length : Nat
  content_size : Nat
  modified_time : Nat
  checksum : Nat
  permissions : Nat
deriving DecidableEq, Repr

/-- In-memory layout of a packed `FileHeader`, as `archive.write` emits it:
`magic:u32, version:u16, entry_count:u32, created_at:u64, reserved:u32`. -/
def FileHeader.toBytes (h : FileHeader) : List Nat :=
  toLE 4 h.magic ++ toLE 2 h.version ++ toLE 4 h.entry_count ++
    toLE 8 h.created_at ++ toLE 4 h.reserved

/-- Decoding of the 22 header bytes `archive.read` fills in. -/
def FileHeader.ofBytes (bs : List Nat) : FileHeader :=
  { magic := fromLE (bs.take 4)
  , version := fromLE ((bs.drop 4).take 2)
  , entry_count := fromLE ((bs.drop 6).take 4)
  , created_at := fromLE ((bs.drop 10).take 8)
  , reserved := fromLE ((bs.drop 18).take 4) }

/-- In-memory layout of a packed `EntryHeader`:
`path_length:u32, content_size:u64, modified_time:u64, checksum:u32,
permissions:u16`. -/
def EntryHeader.toBytes (e : EntryHeader) : List Nat :=
  toLE 4 e.path_length ++ toLE 8 e.content_size ++ toLE 8 e.modified_time ++
    toLE 4 e.checksum ++ toLE 2 e.permissions

/-- Decoding of the 26 entry-header bytes `archive.read` fills in. -/
def EntryHeader.ofBytes (bs : List Nat) : EntryHeader :=
  { path_length := fromLE (bs.take 4)
  , content_size := fromLE ((bs.drop 4).take 8)
  , modified_time := fromLE ((bs.drop 12).take 8)
  , checksum := fromLE ((bs.drop 20).take 4)
  , permissions := fromLE ((bs.drop 24).take 2) }

/-! ## Archiver (`src/src/archiver.cpp`) -/

/-- One regular file yielded by the filesystem walk: its relative path
(the bytes of `fs::relative(file_path, base_dir).string()`), its content
bytes, and the on-disk metadata the walk could expose (which, per the
source, `write_entry` never consults). -/
structure SrcFile where
  path : List Nat
  content : List Nat
  disk_perms : Nat
  disk_mtime : Nat
deriving DecidableEq, Repr

/-- Errors the archiver can signal (each `throw std::runtime_error` site,
classified by the spec's taxonomy). -/
inductive ArchiveError where
  | notFound
  | invalidFormat
  | checksumMismatch (path : List Nat) (expected computed : Nat)
deriving DecidableEq, Repr

/-- The `EntryHeader` that `Archiver::write_entry` fills in for file `f` at
wall-clock time `now`: sizes narrowed by their casts, `modified_time` from
`current_timestamp()`, checksum from the CRC32 engine, permissions `0644`
(octal). -/
def mkEntryHeader (now : Nat) (f : SrcFile) : EntryHeader :=
  { path_length := f.path.length % 2 ^ 32
  , content_size := f.content.length % 2 ^ 64
  , modified_time := now % 2 ^ 64
  , checksum := CRC32.calculate f.content
  , permissions := 0o644 }

/-- Model of `Archiver::write_entry`: header, then path bytes, then content bytes. -/
def write_entry (now : Nat) (f : SrcFile) : List Nat :=
  (mkEntryHeader now f).toBytes ++ f.path ++ f.content

/-- Model of `Archiver::pack` on the file sequence the recursive walk yields
(the source-directory and output-stream checks live outside this byte-level
model): global header with `entry_count = files.size()` (as `uint32_t`),
then one entry record per file, in walk order. -/
def pack (now : Nat) (files : List SrcFile) : List Nat :=
  FileHeader.toBytes
    { magic := KAR_MAGIC
    , version := 1
    , entry_count := files.length % 2 ^ 32
    , created_at := now % 2 ^ 64
    , reserved := 0 } ++
  files.flatMap (write_entry now)

/-- Outcome of `Archiver::unpack`: the `(relative path, content)` pairs
written to the target directory so far (in order), and the error that
aborted the operation, if any. -/
structure UnpackResult where
  written : List (List Nat × List Nat)
  error : Option ArchiveError
deriving DecidableEq, Repr

/-- The entry loop of `Archiver::unpack` (lines 92–139): for each of the
remaining `n` entries, read the 26 header bytes, the path, and exactly
`content_size` content bytes; recompute the CRC32 and compare with the
stored checksum; on mismatch throw (identifying the path, the expected,
i.e. stored, value and the computed one) leaving the files written so far
on disk; otherwise write the file and continue. -/
def unpackEntries : Nat → List Nat → List (List Nat × List Nat) → UnpackResult
  | 0, _, acc => { written := acc, error := none }
  | n + 1, s, acc =>
      let e := EntryHeader.ofBytes (s.take 26)
      let s1 := s.drop 26
      let rel_path := s1.take e.path_length
      let s2 := s1.drop e.path_length
      let buffer := s2.take e.content_size
      let s3 := s2.drop e.content_size
      let calculated_crc := CRC32.calculate buffer
      if calculated_crc = e.checksum then
        unpackEntries n s3 (acc ++ [(rel_path, buffer)])
      else
        { written := acc
        , error := some (.checksumMismatch rel_path e.checksum calculated_crc) }

/-- Model of `Archiver::unpack`: `none` models an archive path whose stream cannot
be opened (`Cannot open archive file`); otherwise read the global header,
reject a wrong magic (`Invalid archive format`), then run the entry loop
`entry_count` times. -/
def unpack (archive : Option (List Nat)) : UnpackResult :=
  match archive with
  | none => { written := [], error := some .notFound }
  | some s =>
      let global_header := FileHeader.ofBytes (s.take 22)
      if global_header.magic = KAR_MAGIC then
        unpackEntries global_header.entry_count (s.drop 22) []
      else
        { written := [], error := some .invalidFormat }

/-- The entry loop of `Archiver::list`: read each entry header and path,
then `seekg` forward over the content; report `(path, content_size)`. -/
def listEntries : Nat → List Nat → List (List Nat × Nat)
  | 0, _ => []
  | n + 1, s =>
      let e := EntryHeader.ofBytes (s.take 26)
      let s1 := s.drop 26
      let rel_path := s1.take e.path_length
      let s2 := (s1.drop e.path_length).drop e.content_size
      (rel_path, e.content_size) :: listEntries n s2

/-- Model of `Archiver::list`.  The result is wrapped in `Except` so that failure
claims about `list` are statable, but the body never produces an error:
the source contains no open check, no magic check and no throw — a stream
that failed to open leaves every read unfulfilled, modelled as the empty
byte stream (unread header bytes decode as zero). -/
def list (archive : Option (List Nat)) :
    Except ArchiveError (List (List Nat × Nat)) :=
  let s := archive.getD []
  let global_header := FileHeader.ofBytes (s.take 22)
  .ok (listEntries global_header.entry_count (s.drop 22))

/-! ## Serialization lemmas -/

theorem toLE_length (w v : Nat) : (toLE w v).length = w := by
  induction w generalizing v with
  | zero => rfl
  | succ w ih => simp [toLE, ih]

theorem fromLE_toLE (w v : Nat) (h : v < 256 ^ w) : fromLE (toLE w v) = v := by
  induction w generalizing v with
  | zero =>
      simp only [pow_zero, Nat.lt_one_iff] at h
      simp [toLE, fromLE, h]
  | succ w ih =>
      have hdiv : v / 256 < 256 ^ w := by
        rw [Nat.div_lt_iff_lt_mul (by norm_num)]
        calc v < 256 ^ (w + 1) := h
        _ = 256 ^ w * 256 := by rw [pow_succ]
      simp only [toLE, fromLE, ih _ hdiv]
      omega

theorem take_append_len {α : Type} (l₁ l₂ : List α) {n : Nat}
    (h : l₁.length = n) : (l₁ ++ l₂).take n = l₁ := by
  subst h
  exact List.take_left l₁ l₂

theorem drop_append_len {α : Type} (l₁ l₂ : List α) {n : Nat}
    (h : l₁.length = n) : (l₁ ++ l₂).drop n = l₂ := by
  subst h
  exact List.drop_left l₁ l₂

theorem shiftRight_xor_distrib (a b k : Nat) :
    (a ^^^ b) >>> k = (a >>> k) ^^^ (b >>> k) := by
  apply Nat.eq_of_testBit_eq
  intro i
  simp [Nat.testBit_shiftRight, Nat.testBit_xor]

/-! ## CRC32 lemmas -/

namespace CRC32

theorem tableEntry_lt_of_mem : ∀ i ∈ List.range 256, tableEntry i < 2 ^ 32 := by
  decide

theorem tableEntry_lt {i : Nat} (h : i < 256) : tableEntry i < 2 ^ 32 :=
  tableEntry_lt_of_mem i (List.mem_range.mpr h)

theorem tableEntry_hi_nodup :
    ((List.range 256).map (fun i => tableEntry i >>> 24)).Nodup := by
  decide

theorem tableEntry_hi_inj {x y : Nat} (hx : x < 256) (hy : y < 256)
    (h : tableEntry x >>> 24 = tableEntry y >>> 24) : x = y :=
  List.inj_on_of_nodup_map tableEntry_hi_nodup (List.mem_range.mpr hx)
    (List.mem_range.mpr hy) h

theorem shiftRight8_eq_div (c : Nat) : c >>> 8 = c / 256 := by
  rw [Nat.shiftRight_eq_div_pow]

theorem shiftRight8_24_eq_zero {c : Nat} (hc : c < 2 ^ 32) :
    c >>> 8 >>> 24 = 0 := by
  rw [Nat.shiftRight_eq_div_pow, Nat.shiftRight_eq_div_pow]
  omega

theorem and_255_lt (a : Nat) : a &&& 255 < 256 := by
  have := Nat.and_lt_two_pow a (show 255 < 2 ^ 8 by norm_num)
  omega

theorem and_255_eq_mod (a : Nat) : a &&& 255 = a % 256 := by
  have h := Nat.and_pow_two_sub_one_eq_mod a 8
  norm_num at h
  exact h

theorem update_lt {crc : Nat} (b : Nat) (h : crc < 2 ^ 32) :
    update crc b < 2 ^ 32 := by
  unfold update
  apply Nat.xor_lt_two_pow
  · have := shiftRight8_eq_div crc
    omega
  · exact tableEntry_lt (and_255_lt _)

theorem foldl_update_lt {crc : Nat} (s : List Nat) (h : crc < 2 ^ 32) :
    s.foldl update crc < 2 ^ 32 := by
  induction s generalizing crc with
  | nil => exact h
  | cons b bs ih => exact ih (update_lt b h)

theorem update_state_inj {c₁ c₂ : Nat} (b : Nat) (h₁ : c₁ < 2 ^ 32)
    (h₂ : c₂ < 2 ^ 32) (h : update c₁ b = update c₂ b) : c₁ = c₂ := by
  have hhi : tableEntry ((c₁ ^^^ b) &&& 255) >>> 24 =
      tableEntry ((c₂ ^^^ b) &&& 255) >>> 24 := by
    have hsh := congrArg (fun z => z >>> 24) h
    simp only [update, shiftRight_xor_distrib] at hsh
    rwa [shiftRight8_24_eq_zero h₁, shiftRight8_24_eq_zero h₂,
      Nat.zero_xor, Nat.zero_xor] at hsh
  have hidx : (c₁ ^^^ b) &&& 255 = (c₂ ^^^ b) &&& 255 :=
    tableEntry_hi_inj (and_255_lt _) (and_255_lt _) hhi
  have hlow : c₁ % 256 = c₂ % 256 := by
    rw [Nat.and_xor_distrib_right, Nat.and_xor_distrib_right] at hidx
    have := Nat.xor_left_inj.mp hidx
    rwa [and_255_eq_mod, and_255_eq_mod] at this
  have hteq : tableEntry ((c₁ ^^^ b) &&& 255) =
      tableEntry ((c₂ ^^^ b) &&& 255) := congrArg tableEntry hidx
  have hhigh : c₁ >>> 8 = c₂ >>> 8 := by
    unfold update at h
    rw [hteq] at h
    exact Nat.xor_left_inj.mp h
  have d₁ := shiftRight8_eq_div c₁
  have d₂ := shiftRight8_eq_div c₂
  omega

theorem update_byte_inj {c b₁ b₂ : Nat} (hb₁ : b₁ < 256) (hb₂ : b₂ < 256)
    (hne : b₁ ≠ b₂) : update c b₁ ≠ update c b₂ := by
  intro h
  unfold update at h
  have hteq : tableEntry ((c ^^^ b₁) &&& 255) =
      tableEntry ((c ^^^ b₂) &&& 255) := Nat.xor_right_inj.mp h
  have hhi : tableEntry ((c ^^^ b₁) &&& 255) >>> 24 =
      tableEntry ((c ^^^ b₂) &&& 255) >>> 24 := by rw [hteq]
  have hidx : (c ^^^ b₁) &&& 255 = (c ^^^ b₂) &&& 255 :=
    tableEntry_hi_inj (and_255_lt _) (and_255_lt _) hhi
  rw [Nat.and_xor_distrib_right, Nat.and_xor_distrib_right] at hidx
  have hb := Nat.xor_right_inj.mp hidx
  rw [and_255_eq_mod, and_255_eq_mod, Nat.mod_eq_of_lt hb₁,
    Nat.mod_eq_of_lt hb₂] at hb
  exact hne hb

theorem foldl_update_state_inj {c₁ c₂ : Nat} (s : List Nat)
    (h₁ : c₁ < 2 ^ 32) (h₂ : c₂ < 2 ^ 32) (hne : c₁ ≠ c₂) :
    s.foldl update c₁ ≠ s.foldl update c₂ := by
  induction s generalizing c₁ c₂ with
  | nil => exact hne
  | cons b bs ih =>
      simp only [List.foldl_cons]
      exact ih (update_lt b h₁) (update_lt b h₂)
        (fun h => hne (update_state_inj b h₁ h₂ h))

theorem calculate_lt (data : List Nat) : calculate data < 2 ^ 32 := by
  unfold calculate
  exact Nat.xor_lt_two_pow (foldl_update_lt data (by norm_num)) (by norm_num)

/-- Flipping one byte of the input always changes the CRC32 value. -/
theorem calculate_flip_ne (u v : List Nat) {b₁ b₂ : Nat} (hb₁ : b₁ < 256)
    (hb₂ : b₂ < 256) (hne : b₁ ≠ b₂) :
    calculate (u ++ b₁ :: v) ≠ calculate (u ++ b₂ :: v) := by
  unfold calculate
  intro h
  have hfold := Nat.xor_left_inj.mp h
  rw [List.foldl_append, List.foldl_append, List.foldl_cons,
    List.foldl_cons] at hfold
  have hc : u.foldl update 0xFFFFFFFF < 2 ^ 32 :=
    foldl_update_lt u (by norm_num)
  exact foldl_update_state_inj v (update_lt b₁ hc) (update_lt b₂ hc)
    (update_byte_inj hb₁ hb₂ hne) hfold

end CRC32

/-! ## Header round-trip lemmas -/

theorem two_pow_32_eq : (2 : Nat) ^ 32 = 256 ^ 4 := by norm_num

theorem two_pow_64_eq : (2 : Nat) ^ 64 = 256 ^ 8 := by norm_num

theorem two_pow_16_eq : (2 : Nat) ^ 16 = 256 ^ 2 := by norm_num

theorem entryToBytes_length (e : EntryHeader) : e.toBytes.length = 26 := by
  simp [EntryHeader.toBytes, toLE_length]

theorem fileToBytes_length (h : FileHeader) : h.toBytes.length = 22 := by
  simp [FileHeader.toBytes, toLE_length]

theorem entryOfBytes_toBytes (e : EntryHeader) (rest : List Nat)
    (h₁ : e.path_length < 2 ^ 32) (h₂ : e.content_size < 2 ^ 64)
    (h₃ : e.modified_time < 2 ^ 64) (h₄ : e.checksum < 2 ^ 32)
    (h₅ : e.permissions < 2 ^ 16) :
    EntryHeader.ofBytes (e.toBytes ++ rest) = e := by
  have hb : e.toBytes ++ rest =
      toLE 4 e.path_length ++ (toLE 8 e.content_size ++ (toLE 8 e.modified_time ++
        (toLE 4 e.checksum ++ (toLE 2 e.permissions ++ rest)))) := by
    simp [EntryHeader.toBytes, List.append_assoc]
  have t0 : (e.toBytes ++ rest).take 4 = toLE 4 e.path_length := by
    rw [hb]
    exact take_append_len _ _ (toLE_length 4 _)
  have d4 : (e.toBytes ++ rest).drop 4 = toLE 8 e.content_size ++
      (toLE 8 e.modified_time ++ (toLE 4 e.checksum ++
        (toLE 2 e.permissions ++ rest))) := by
    rw [hb]
    exact drop_append_len _ _ (toLE_length 4 _)
  have t4 : ((e.toBytes ++ rest).drop 4).take 8 = toLE 8 e.content_size := by
    rw [d4]
    exact take_append_len _ _ (toLE_length 8 _)
  have d12 : (e.toBytes ++ rest).drop 12 = toLE 8 e.modified_time ++
      (toLE 4 e.checksum ++ (toLE 2 e.permissions ++ rest)) := by
    rw [show (12 : Nat) = 4 + 8 from rfl, ← List.drop_drop, d4]
    exact drop_append_len _ _ (toLE_length 8 _)
  have t12 : ((e.toBytes ++ rest).drop 12).take 8 = toLE 8 e.modified_time := by
    rw [d12]
    exact take_append_len _ _ (toLE_length 8 _)
  have d20 : (e.toBytes ++ rest).drop 20 = toLE 4 e.checksum ++
      (toLE 2 e.permissions ++ rest) := by
    rw [show (20 : Nat) = 12 + 8 from rfl, ← List.drop_drop, d12]
    exact drop_append_len _ _ (toLE_length 8 _)
  have t20 : ((e.toBytes ++ rest).drop 20).take 4 = toLE 4 e.checksum := by
    rw [d20]
    exact take_append_len _ _ (toLE_length 4 _)
  have d24 : (e.toBytes ++ rest).drop 24 = toLE 2 e.permissions ++ rest := by
    rw [show (24 : Nat) = 20 + 4 from rfl, ← List.drop_drop, d20]
    exact drop_append_len _ _ (toLE_length 4 _)
  have t24 : ((e.toBytes ++ rest).drop 24).take 2 = toLE 2 e.permissions := by
    rw [d24]
    exact take_append_len _ _ (toLE_length 2 _)
  unfold EntryHeader.ofBytes
  rw [t0, t4, t12, t20, t24,
    fromLE_toLE 4 _ (two_pow_32_eq ▸ h₁), fromLE_toLE 8 _ (two_pow_64_eq ▸ h₂),
    fromLE_toLE 8 _ (two_pow_64_eq ▸ h₃), fromLE_toLE 4 _ (two_pow_32_eq ▸ h₄),
    fromLE_toLE 2 _ (two_pow_16_eq ▸ h₅)]

theorem fileOfBytes_toBytes (h : FileHeader) (rest : List Nat)
    (h₁ : h.magic < 2 ^ 32) (h₂ : h.version < 2 ^ 16)
    (h₃ : h.entry_count < 2 ^ 32) (h₄ : h.created_at < 2 ^ 64)
    (h₅ : h.reserved < 2 ^ 32) :
    FileHeader.ofBytes (h.toBytes ++ rest) = h := by
  have hb : h.toBytes ++ rest =
      toLE 4 h.magic ++ (toLE 2 h.version ++ (toLE 4 h.entry_count ++
        (toLE 8 h.created_at ++ (toLE 4 h.reserved ++ rest)))) := by
    simp [FileHeader.toBytes, List.append_assoc]
  have t0 : (h.toBytes ++ rest).take 4 = toLE 4 h.magic := by
    rw [hb]
    exact take_append_len _ _ (toLE_length 4 _)
  have d4 : (h.toBytes ++ rest).drop 4 = toLE 2 h.version ++
      (toLE 4 h.entry_count ++ (toLE 8 h.created_at ++
        (toLE 4 h.reserved ++ rest))) := by
    rw [hb]
    exact drop_append_len _ _ (toLE_length 4 _)
  have t4 : ((h.toBytes ++ rest).drop 4).take 2 = toLE 2 h.version := by
    rw [d4]
    exact take_append_len _ _ (toLE_length 2 _)
  have d6 : (h.toBytes ++ rest).drop 6 = toLE 4 h.entry_count ++
      (toLE 8 h.created_at ++ (toLE 4 h.reserved ++ rest)) := by
    rw [show (6 : Nat) = 4 + 2 from rfl, ← List.drop_drop, d4]
    exact drop_append_len _ _ (toLE_length 2 _)
  have t6 : ((h.toBytes ++ rest).drop 6).take 4 = toLE 4 h.entry_count := by
    rw [d6]
    exact take_append_len _ _ (toLE_length 4 _)
  have d10 : (h.toBytes ++ rest).drop 10 = toLE 8 h.created_at ++
      (toLE 4 h.reserved ++ rest) := by
    rw [show (10 : Nat) = 6 + 4 from rfl, ← List.drop_drop, d6]
    exact drop_append_len _ _ (toLE_length 4 _)
  have t10 : ((h.toBytes ++ rest).drop 10).take 8 = toLE 8 h.created_at := by
    rw [d10]
    exact take_append_len _ _ (toLE_length 8 _)
  have d18 : (h.toBytes ++ rest).drop 18 = toLE 4 h.reserved ++ rest := by
    rw [show (18 : Nat) = 10 + 8 from rfl, ← List.drop_drop, d10]
    exact drop_append_len _ _ (toLE_length 8 _)
  have t18 : ((h.toBytes ++ rest).drop 18).take 4 = toLE 4 h.reserved := by
    rw [d18]
    exact take_append_len _ _ (toLE_length 4 _)
  unfold FileHeader.ofBytes
  rw [t0, t4, t6, t10, t18,
    fromLE_toLE 4 _ (two_pow_32_eq ▸ h₁), fromLE_toLE 2 _ (two_pow_16_eq ▸ h₂),
    fromLE_toLE 4 _ (two_pow_32_eq ▸ h₃), fromLE_toLE 8 _ (two_pow_64_eq ▸ h₄),
    fromLE_toLE 4 _ (two_pow_32_eq ▸ h₅)]

/-! ## Unpack loop lemmas -/

theorem ofBytes_mkEntryHeader_append (now : Nat) (f : SrcFile)
    (rest : List Nat) :
    EntryHeader.ofBytes ((mkEntryHeader now f).toBytes ++ rest) =
      mkEntryHeader now f :=
  entryOfBytes_toBytes (mkEntryHeader now f) rest
    (Nat.mod_lt _ (by norm_num)) (Nat.mod_lt _ (by norm_num))
    (Nat.mod_lt _ (by norm_num)) (CRC32.calculate_lt f.content)
    (by simp [mkEntryHeader])

theorem ofBytes_mkEntryHeader (now : Nat) (f : SrcFile) :
    EntryHeader.ofBytes (mkEntryHeader now f).toBytes = mkEntryHeader now f := by
  have h := ofBytes_mkEntryHeader_append now f []
  rwa [List.append_nil] at h

theorem write_entry_length (now : Nat) (f : SrcFile) :
    (write_entry now f).length = 26 + f.path.length + f.content.length := by
  simp [write_entry, List.length_append, entryToBytes_length]
  omega

theorem flatMap_write_entry_length (now : Nat) (files : List SrcFile) :
    (files.flatMap (write_entry now)).length =
      (files.map (fun f => 26 + f.path.length + f.content.length)).sum := by
  induction files with
  | nil => simp
  | cons f fs ih =>
      simp [List.flatMap_cons, List.length_append, write_entry_length, ih]

/-- Processing one well-formed entry record advances the loop and records
the file. -/
theorem unpackEntries_step (n now : Nat) (f : SrcFile) (rest : List Nat)
    (acc : List (List Nat × List Nat)) (hp : f.path.length < 2 ^ 32)
    (hc : f.content.length < 2 ^ 64) :
    unpackEntries (n + 1) (write_entry now f ++ rest) acc =
      unpackEntries n rest (acc ++ [(f.path, f.content)]) := by
  have hsplit : write_entry now f ++ rest =
      (mkEntryHeader now f).toBytes ++ (f.path ++ (f.content ++ rest)) := by
    simp [write_entry, List.append_assoc]
  have ht26 : (write_entry now f ++ rest).take 26 =
      (mkEntryHeader now f).toBytes := by
    rw [hsplit]
    exact take_append_len _ _ (entryToBytes_length _)
  have hd26 : (write_entry now f ++ rest).drop 26 =
      f.path ++ (f.content ++ rest) := by
    rw [hsplit]
    exact drop_append_len _ _ (entryToBytes_length _)
  have hplen : (mkEntryHeader now f).path_length = f.path.length :=
    Nat.mod_eq_of_lt hp
  have hclen : (mkEntryHeader now f).content_size = f.content.length :=
    Nat.mod_eq_of_lt hc
  simp only [unpackEntries]
  rw [ht26, hd26, ofBytes_mkEntryHeader, hplen, hclen,
    take_append_len f.path _ rfl, drop_append_len f.path _ rfl,
    take_append_len f.content _ rfl, drop_append_len f.content _ rfl]
  simp [mkEntryHeader]

/-- The unpack loop consumes a well-formed run of entry records, recording
each file in order. -/
theorem unpackEntries_run (now : Nat) (files : List SrcFile) (n : Nat)
    (rest : List Nat) (acc : List (List Nat × List Nat))
    (hwf : ∀ f ∈ files, f.path.length < 2 ^ 32 ∧ f.content.length < 2 ^ 64) :
    unpackEntries (files.length + n) (files.flatMap (write_entry now) ++ rest)
        acc =
      unpackEntries n rest (acc ++ files.map (fun f => (f.path, f.content))) := by
  induction files generalizing acc with
  | nil => simp
  | cons f fs ih =>
      have hf := hwf f (List.mem_cons_self f fs)
      have hlen : (f :: fs).length + n = (fs.length + n) + 1 := by
        simp [List.length_cons]
        omega
      rw [hlen, List.flatMap_cons, List.append_assoc,
        unpackEntries_step _ now f _ acc hf.1 hf.2,
        ih (acc ++ [(f.path, f.content)])
          (fun g hg => hwf g (List.mem_cons_of_mem f hg))]
      simp

/-- The global header written by `pack` parses back to its fields. -/
theorem ofBytes_pack_take (now : Nat) (files : List SrcFile) :
    FileHeader.ofBytes ((pack now files).take 22) =
      { magic := KAR_MAGIC
      , version := 1
      , entry_count := files.length % 2 ^ 32
      , created_at := now % 2 ^ 64
      , reserved := 0 } := by
  unfold pack
  rw [take_append_len _ _ (fileToBytes_length _)]
  have h := fileOfBytes_toBytes
    { magic := KAR_MAGIC
    , version := 1
    , entry_count := files.length % 2 ^ 32
    , created_at := now % 2 ^ 64
    , reserved := 0 } []
    (by norm_num [KAR_MAGIC]) (by norm_num) (Nat.mod_lt _ (by norm_num))
    (Nat.mod_lt _ (by norm_num)) (by norm_num)
  rwa [List.append_nil] at h

theorem pack_drop (now : Nat) (files : List SrcFile) :
    (pack now files).drop 22 = files.flatMap (write_entry now) := by
  unfold pack
  exact drop_append_len _ _ (fileToBytes_length _)

theorem ofBytes_packHeader (count now : Nat) :
    FileHeader.ofBytes (FileHeader.toBytes
        { magic := KAR_MAGIC, version := 1, entry_count := count % 2 ^ 32
        , created_at := now % 2 ^ 64, reserved := 0 }) =
      { magic := KAR_MAGIC, version := 1, entry_count := count % 2 ^ 32
      , created_at := now % 2 ^ 64, reserved := 0 } := by
  have h := fileOfBytes_toBytes
    { magic := KAR_MAGIC, version := 1, entry_count := count % 2 ^ 32
    , created_at := now % 2 ^ 64, reserved := 0 } []
    (by norm_num [KAR_MAGIC]) (by norm_num) (Nat.mod_lt _ (by norm_num))
    (Nat.mod_lt _ (by norm_num)) (by norm_num)
  rwa [List.append_nil] at h

/-- Setting the element sitting exactly after a prefix of length `n`. -/
theorem set_at_append_len {α : Type} (l₁ l₂ : List α) (x y : α) {n : Nat}
    (h : l₁.length = n) : (l₁ ++ x :: l₂).set n y = l₁ ++ y :: l₂ := by
  subst h
  rw [List.set_append_right _ _ (Nat.le_refl _), Nat.sub_self,
    List.set_cons_zero]

/-- Replacing the byte at offset `|c₁|` of entry `f`'s content region inside
a packed container yields the container with `b` replaced by `b'` there and
everything else unchanged. -/
theorem set_pack_corrupt (now : Nat) (pre post : List SrcFile) (f : SrcFile)
    (c₁ c₂ : List Nat) (b b' : Nat) (hcontent : f.content = c₁ ++ b :: c₂) :
    (pack now (pre ++ f :: post)).set
        (22 + (pre.flatMap (write_entry now)).length + 26 + f.path.length +
          c₁.length) b' =
      FileHeader.toBytes
        { magic := KAR_MAGIC, version := 1
        , entry_count := (pre ++ f :: post).length % 2 ^ 32
        , created_at := now % 2 ^ 64, reserved := 0 } ++
      (pre.flatMap (write_entry now) ++
        ((mkEntryHeader now f).toBytes ++ (f.path ++ ((c₁ ++ b' :: c₂) ++
          post.flatMap (write_entry now))))) := by
  have hassoc : pack now (pre ++ f :: post) =
      (((((FileHeader.toBytes
        { magic := KAR_MAGIC, version := 1
        , entry_count := (pre ++ f :: post).length % 2 ^ 32
        , created_at := now % 2 ^ 64, reserved := 0 } ++
        pre.flatMap (write_entry now)) ++ (mkEntryHeader now f).toBytes) ++
        f.path) ++ c₁) ++
        (b :: (c₂ ++ post.flatMap (write_entry now)))) := by
    unfold pack
    rw [List.flatMap_append, List.flatMap_cons]
    unfold write_entry
    rw [hcontent]
    simp [List.append_assoc]
  have hlen : (((((FileHeader.toBytes
      { magic := KAR_MAGIC, version := 1
      , entry_count := (pre ++ f :: post).length % 2 ^ 32
      , created_at := now % 2 ^ 64, reserved := 0 } ++
      pre.flatMap (write_entry now)) ++ (mkEntryHeader now f).toBytes) ++
      f.path) ++ c₁)).length =
      22 + (pre.flatMap (write_entry now)).length + 26 + f.path.length +
        c₁.length := by
    simp [List.length_append, fileToBytes_length,
      entryToBytes_length]
    omega
  rw [hassoc, set_at_append_len _ _ b b' hlen]
  simp [List.append_assoc]

/-- Reading a corrupted entry record: the recomputed CRC differs from the
stored one, so the loop aborts with `ChecksumMismatch`, writing nothing
for this entry and touching none of the remaining ones. -/
theorem unpackEntries_corrupt_step (n now : Nat) (f : SrcFile)
    (c₁ c₂ : List Nat) (b b' : Nat) (rest : List Nat)
    (acc : List (List Nat × List Nat))
    (hp : f.path.length < 2 ^ 32) (hc : f.content.length < 2 ^ 64)
    (hcontent : f.content = c₁ ++ b :: c₂)
    (hb : b < 256) (hb' : b' < 256) (hne : b' ≠ b) :
    unpackEntries (n + 1)
        ((mkEntryHeader now f).toBytes ++ (f.path ++ ((c₁ ++ b' :: c₂) ++
          rest))) acc =
      { written := acc
      , error := some (.checksumMismatch f.path (CRC32.calculate f.content)
          (CRC32.calculate (c₁ ++ b' :: c₂))) } := by
  have hlen' : (c₁ ++ b' :: c₂).length = f.content.length := by
    rw [hcontent]
    simp
  have hplen : (mkEntryHeader now f).path_length = f.path.length :=
    Nat.mod_eq_of_lt hp
  have hclen : (mkEntryHeader now f).content_size = f.content.length :=
    Nat.mod_eq_of_lt hc
  have hcrc : CRC32.calculate (c₁ ++ b' :: c₂) ≠
      (mkEntryHeader now f).checksum := by
    have : (mkEntryHeader now f).checksum = CRC32.calculate f.content := rfl
    rw [this, hcontent]
    exact CRC32.calculate_flip_ne c₁ c₂ hb' hb hne
  have hck : (mkEntryHeader now f).checksum =
      CRC32.calculate (c₁ ++ b :: c₂) := by
    simp only [mkEntryHeader]
    rw [hcontent]
  simp only [unpackEntries]
  rw [take_append_len _ _ (entryToBytes_length _),
    drop_append_len _ _ (entryToBytes_length _),
    ofBytes_mkEntryHeader, hplen, hclen,
    take_append_len f.path _ rfl, drop_append_len f.path _ rfl,
    take_append_len _ _ hlen', if_neg hcrc, hck, hcontent]

end Kar

namespace Kar

/-! ## Claim theorems -/

/-- C1: for every directory tree of regular files (arbitrary relative
paths and contents, including empty contents), unpacking the container
produced by `pack` succeeds and writes exactly the original relative paths
with byte-identical contents, in walk order. -/
theorem unpack_pack_roundtrip (now : Nat) (files : List SrcFile)
    (hwf : ∀ f ∈ files, f.path.length < 2 ^ 32 ∧ f.content.length < 2 ^ 64)
    (hcount : files.length < 2 ^ 32) :
    unpack (some (pack now files)) =
      { written := files.map (fun f => (f.path, f.content)), error := none } := by
  simp only [unpack]
  rw [ofBytes_pack_take, pack_drop]
  simp only [Nat.mod_eq_of_lt hcount, if_true]
  have h := unpackEntries_run now files 0 [] [] hwf
  rw [List.append_nil, Nat.add_zero] at h
  rw [h]
  simp [unpackEntries]

/-- Witness for C1: a two-file tree (a zero-byte file `a` and a nested
file `d/b` with content `hi`) round-trips exactly. -/
theorem unpack_pack_roundtrip_witness :
    unpack (some (pack 1700000000
        [{ path := [97], content := [], disk_perms := 0, disk_mtime := 0 },
         { path := [100, 47, 98], content := [104, 105], disk_perms := 0
         , disk_mtime := 0 }])) =
      { written := [([97], []), ([100, 47, 98], [104, 105])]
      , error := none } := by
  rw [unpack_pack_roundtrip 1700000000 _ (by decide) (by decide)]
  rfl

/-- C2: the checksum engine is the standard reflected IEEE 802.3 CRC-32:
the lookup table is the 256 byte values pushed through 8 shift/XOR rounds
with polynomial `0xEDB88320`, and `calculate` meets the reference vectors:
`"" ↦ 0x00000000`, `"a" ↦ 0xE8B7BE43`, `"abc" ↦ 0x352441C2`,
`"123456789" ↦ 0xCBF43926`. -/
theorem crc32_reference_vectors :
    CRC32.table = (List.range 256).map CRC32.tableEntry ∧
    CRC32.table.length = 256 ∧
    CRC32.calculate [] = 0x00000000 ∧
    CRC32.calculate [0x61] = 0xE8B7BE43 ∧
    CRC32.calculate [0x61, 0x62, 0x63] = 0x352441C2 ∧
    CRC32.calculate [0x31, 0x32, 0x33, 0x34, 0x35, 0x36, 0x37, 0x38, 0x39] =
      0xCBF43926 := by
  refine ⟨rfl, ?_, ?_, ?_, ?_, ?_⟩ <;> decide

/-- C4 (amended): every entry record written by `pack` stores in its
checksum field exactly the CRC-32 of the entry's content bytes.  (The
original claim's addendum — that a stored checksum of zero occurs only for
empty content — is refuted by `write_entry_checksum_zero_nonempty`.) -/
theorem write_entry_checksum_eq_crc32 (now : Nat) (f : SrcFile) :
    (EntryHeader.ofBytes (write_entry now f)).checksum =
      CRC32.calculate f.content := by
  unfold write_entry
  rw [List.append_assoc, ofBytes_mkEntryHeader_append]
  rfl

/-- Counterexample to C4 as stated: the four content bytes
`9D 0A D9 6D` have CRC-32 zero, so `pack` stores checksum `0` for an entry
whose `content_size` is 4, not 0. -/
theorem write_entry_checksum_zero_nonempty :
    (EntryHeader.ofBytes (write_entry 0
        { path := [97], content := [0x9D, 0x0A, 0xD9, 0x6D], disk_perms := 0
        , disk_mtime := 0 })).checksum = 0 ∧
    (EntryHeader.ofBytes (write_entry 0
        { path := [97], content := [0x9D, 0x0A, 0xD9, 0x6D], disk_perms := 0
        , disk_mtime := 0 })).content_size = 4 := by
  constructor <;> decide

/-- C5 (amended): `unpack` fails with `InvalidFormat` on any stream whose
magic field does not decode to `KAR_MAGIC`, before processing any entry;
`list`, however, performs no magic validation and always completes without
an error.  (The original claim — that `list` also fails — is refuted by
`list_ignores_bad_magic`.) -/
theorem unpack_bad_magic_invalidFormat (s : List Nat)
    (h : (FileHeader.ofBytes (s.take 22)).magic ≠ KAR_MAGIC) :
    unpack (some s) = { written := [], error := some .invalidFormat } ∧
    ∃ entries, list (some s) = .ok entries := by
  constructor
  · simp only [unpack]
    rw [if_neg h]
  · exact ⟨_, rfl⟩

/-- Witness for C5's theorem: a 22-byte stream whose first four bytes are
zero is rejected by `unpack` and accepted by `list`. -/
theorem unpack_bad_magic_invalidFormat_witness :
    unpack (some (FileHeader.toBytes
        { magic := 0, version := 1, entry_count := 0, created_at := 0
        , reserved := 0 })) =
      { written := [], error := some .invalidFormat } ∧
    ∃ entries, list (some (FileHeader.toBytes
        { magic := 0, version := 1, entry_count := 0, created_at := 0
        , reserved := 0 })) = .ok entries :=
  unpack_bad_magic_invalidFormat _ (by decide)

/-- Counterexample to C5 as stated: `list` on a stream whose first four
bytes are not the magic completes successfully (the source's `list` never
checks the magic), instead of failing with `InvalidFormat`. -/
theorem list_ignores_bad_magic :
    (FileHeader.ofBytes ((FileHeader.toBytes
        { magic := 0, version := 1, entry_count := 0, created_at := 0
        , reserved := 0 }).take 22)).magic ≠ KAR_MAGIC ∧
    list (some (FileHeader.toBytes
        { magic := 0, version := 1, entry_count := 0, created_at := 0
        , reserved := 0 })) = .ok [] := by
  exact ⟨by decide, rfl⟩

/-- C6 (code gap): a container whose single entry declares the
parent-traversal relative path `../evil` is extracted without any
`PathTraversal` rejection: `unpack` completes successfully and writes the
entry under that escaping path (the source joins `target_dir / rel_path`
with no validation). -/
theorem unpack_writes_traversal_path :
    unpack (some (FileHeader.toBytes
        { magic := KAR_MAGIC, version := 1, entry_count := 1, created_at := 0
        , reserved := 0 } ++
      EntryHeader.toBytes
        { path_length := 7, content_size := 0, modified_time := 0
        , checksum := 0, permissions := 420 } ++
      [46, 46, 47, 101, 118, 105, 108])) =
      { written := [([46, 46, 47, 101, 118, 105, 108], [])], error := none } := by
  decide

/-- C7: the container's total byte length is the 22-byte global header
plus, per entry, the 26-byte entry header plus the entry's `path_length`
and `content_size` fields, and the header's `entry_count` equals the
number of entry records written. -/
theorem pack_length_invariant (now : Nat) (files : List SrcFile)
    (hwf : ∀ f ∈ files, f.path.length < 2 ^ 32 ∧ f.content.length < 2 ^ 64)
    (hcount : files.length < 2 ^ 32) :
    (pack now files).length =
      22 + (files.map (fun f => 26 + (mkEntryHeader now f).path_length +
        (mkEntryHeader now f).content_size)).sum ∧
    (FileHeader.ofBytes ((pack now files).take 22)).entry_count =
      files.length := by
  constructor
  · have hfields : files.map (fun f => 26 + (mkEntryHeader now f).path_length +
        (mkEntryHeader now f).content_size) =
        files.map (fun f => 26 + f.path.length + f.content.length) := by
      apply List.map_congr_left
      intro f hf
      have h := hwf f hf
      simp only [mkEntryHeader]
      omega
    rw [hfields]
    unfold pack
    rw [List.length_append, fileToBytes_length,
      flatMap_write_entry_length]
  · rw [ofBytes_pack_take]
    exact Nat.mod_eq_of_lt hcount

/-- Witness for C7: a one-file archive has length
`22 + (26 + 1 + 2) = 51` and entry count 1. -/
theorem pack_length_invariant_witness :
    (pack 7 [{ path := [97], content := [104, 105], disk_perms := 0, disk_mtime := 0 }]).length =
      22 + ([({ path := [97], content := [104, 105], disk_perms := 0, disk_mtime := 0 } : SrcFile)].map
        (fun f => 26 + (mkEntryHeader 7 f).path_length +
          (mkEntryHeader 7 f).content_size)).sum ∧
    (FileHeader.ofBytes ((pack 7 [{ path := [97], content := [104, 105], disk_perms := 0, disk_mtime := 0 }]).take 22)).entry_count = 1 :=
  pack_length_invariant 7 _ (by decide) (by decide)

/-- C8: on any stream whose decoded global header has the right magic and
`entry_count = 0`, both `unpack` and `list` succeed and process no
entries. -/
theorem empty_archive_ok (s : List Nat)
    (hm : (FileHeader.ofBytes (s.take 22)).magic = KAR_MAGIC)
    (hc : (FileHeader.ofBytes (s.take 22)).entry_count = 0) :
    unpack (some s) = { written := [], error := none } ∧
    list (some s) = .ok [] := by
  constructor
  · simp only [unpack]
    rw [if_pos hm, hc]
    rfl
  · simp only [list, Option.getD]
    rw [hc]
    rfl

/-- Witness for C8: the 22-byte header-only archive with `entry_count = 0`. -/
theorem empty_archive_ok_witness :
    unpack (some (FileHeader.toBytes
        { magic := KAR_MAGIC, version := 1, entry_count := 0, created_at := 5
        , reserved := 0 })) = { written := [], error := none } ∧
    list (some (FileHeader.toBytes
        { magic := KAR_MAGIC, version := 1, entry_count := 0, created_at := 5
        , reserved := 0 })) = .ok [] :=
  empty_archive_ok _ (by decide) (by decide)

/-- C9 (amended): `unpack` on an archive whose stream cannot be opened
fails with `NotFound` before interpreting anything; `list`, whose source
never checks that the stream opened, completes without an error (its
unread header is modelled as zero bytes, giving an empty listing).
(The original claim — that `list` also fails with `NotFound` — is refuted
by `list_missing_archive_no_error`.) -/
theorem unpack_missing_archive_notFound :
    unpack none = { written := [], error := some .notFound } ∧
    list none = .ok [] := by
  constructor <;> rfl

/-- Counterexample to C9 as stated: `list` on an unopenable archive
returns a successful (empty) listing, not a `NotFound` error. -/
theorem list_missing_archive_no_error :
    list none = .ok [] := by
  rfl

/-- C10: every entry record written by `pack` stores the constant
permission bits `0644` (octal) and the wall-clock time of the pack
invocation (as a `uint64`), regardless of the source file's on-disk
permissions and modification time (`f.disk_perms` / `f.disk_mtime` are
arbitrary here and unused). -/
theorem write_entry_fixed_metadata (now : Nat) (f : SrcFile) :
    (EntryHeader.ofBytes (write_entry now f)).permissions = 0o644 ∧
    (EntryHeader.ofBytes (write_entry now f)).modified_time = now % 2 ^ 64 := by
  unfold write_entry
  rw [List.append_assoc, ofBytes_mkEntryHeader_append]
  exact ⟨rfl, rfl⟩

/-- C3: replacing any single byte (offset `c₁.length` of entry `f`'s
content region, new value `b' ≠ b`) in a container produced by `pack`
makes `unpack` abort with `ChecksumMismatch` carrying that entry's path,
the stored (expected) checksum and the recomputed one; no file is written
for the corrupted entry or any later entry, while the files of the
earlier, verified entries remain written. -/
theorem unpack_detects_corruption (now : Nat) (pre post : List SrcFile)
    (f : SrcFile) (c₁ c₂ : List Nat) (b b' : Nat)
    (hwfpre : ∀ g ∈ pre, g.path.length < 2 ^ 32 ∧ g.content.length < 2 ^ 64)
    (hp : f.path.length < 2 ^ 32) (hc : f.content.length < 2 ^ 64)
    (hcontent : f.content = c₁ ++ b :: c₂)
    (hb : b < 256) (hb' : b' < 256) (hne : b' ≠ b)
    (hcount : (pre ++ f :: post).length < 2 ^ 32) :
    unpack (some ((pack now (pre ++ f :: post)).set
        (22 + (pre.flatMap (write_entry now)).length + 26 + f.path.length +
          c₁.length) b')) =
      { written := pre.map (fun g => (g.path, g.content))
      , error := some (.checksumMismatch f.path (CRC32.calculate f.content)
          (CRC32.calculate (c₁ ++ b' :: c₂))) } := by
  rw [set_pack_corrupt now pre post f c₁ c₂ b b' hcontent]
  simp only [unpack]
  rw [take_append_len _ _ (fileToBytes_length _),
    drop_append_len _ _ (fileToBytes_length _), ofBytes_packHeader]
  simp only [Nat.mod_eq_of_lt hcount, if_true]
  have hsplit : (pre ++ f :: post).length = pre.length + (post.length + 1) := by
    simp
  rw [hsplit, unpackEntries_run now pre (post.length + 1) _ [] hwfpre,
    unpackEntries_corrupt_step post.length now f c₁ c₂ b b' _ _ hp hc
      hcontent hb hb' hne]
  rw [hcontent]
  simp

/-- Witness for C3: in the one-file archive for path `a`, content `hi`,
replacing the first content byte (`h`, offset 49 of the container) with 0
makes `unpack` fail with `ChecksumMismatch` for path `a`, expected
CRC-32 `0xD8932AAC` (of `hi`), computed `0x75B7CB03` (of the corrupted
content), and write no files. -/
theorem unpack_detects_corruption_witness :
    unpack (some ((pack 3 [{ path := [97], content := [104, 105], disk_perms := 0, disk_mtime := 0 }]).set 49 0)) =
      { written := []
      , error := some (.checksumMismatch [97]
          (CRC32.calculate [104, 105]) (CRC32.calculate [0, 105])) } :=
  unpack_detects_corruption 3 [] []
    { path := [97], content := [104, 105], disk_perms := 0, disk_mtime := 0 }
    [] [105] 104 0 (by decide) (by decide) (by decide) (by decide)
    (by decide) (by decide) (by decide) (by decide)

end Kar
